import Mathlib

/-!
# go-ipld-prime: schema DMT compilation, link types and `quip.CopyRange`

A shallow embedding of

* `schema/dmt/compile.go`  (`Schema.Compile` and the `flip` translations),
* `schema/type_link.go`    (`TypeLink.HasExpectedType`, `TypeLink.ExpectedType`),
* `fluent/quip/quip.go`    (`CopyRange`),

followed by the properties established about them.

Conventions of the embedding:

* a Go `panic(v)` is the result `Except.error v` (the panic value is the message);
* a Go slice is a `GoSlice`: the nil slice and the empty non-nil slice are different values;
* the DMT's ordered maps and lists are Lean lists in iteration order;
* the `schema.Compiler` registration calls are kept as the sequence of calls with
  their arguments, which is what the statements about "what is handed to the compiler"
  speak of.
-/

set_option autoImplicit false

/-! ## Go slices -/

/-- A Go slice value. `GoSlice.nil` is the nil slice, `GoSlice.mk xs` a non-nil slice
holding `xs` (possibly no element at all). -/
inductive GoSlice (α : Type) where
  | nil : GoSlice α
  | mk (elems : List α) : GoSlice α
  deriving DecidableEq, Repr

namespace GoSlice

variable {α : Type}

/-- The elements of a slice, in order; the nil slice has none. -/
def toList : GoSlice α → List α
  | nil => []
  | mk xs => xs

/-- Go `make([]T, n)`: a non-nil slice of `n` zero values. -/
def make (zero : α) (n : Nat) : GoSlice α :=
  mk (List.replicate n zero)

/-- Go `append(s, x)`: the result is never nil. -/
def append (s : GoSlice α) (x : α) : GoSlice α :=
  mk (s.toList ++ [x])

end GoSlice

/-! ## Package `schema`: what the compiler is handed -/

namespace schema

abbrev TypeName := String
abbrev TypeReference := String
abbrev StructFieldName := String

/-- Modelled from the spec: the scalar values an implicit default can take
("implicitValue?: Value"); the carrier type is declared in another file. -/
inductive AnyScalar where
  | bool (b : Bool)
  | string (s : String)
  | bytes (bs : List Nat)
  | int (i : Int)
  deriving DecidableEq, Repr

/-- Modelled from the spec: a compiled struct field, "name, type reference,
`optional: bool`, `nullable: bool`"; the Go struct is declared in another file.
These are the four arguments `MakeStructField` is called with. -/
structure StructField where
  name : StructFieldName
  type : TypeReference
  optional : Bool
  nullable : Bool
  deriving DecidableEq, Repr

/-- The Go zero value of `StructField`: every member is the zero value of its type. -/
def StructField.zero : StructField :=
  { name := "", type := "", optional := false, nullable := false }

/-- Modelled from the spec: the call `schema.Compiler{}.MakeStructField(name, typ, optional,
nullable)`, declared in another file: the struct field of these four values. -/
def MakeStructField (name : StructFieldName) (typ : TypeReference)
    (optional nullable : Bool) : StructField :=
  { name := name, type := typ, optional := optional, nullable := nullable }

/-- Modelled from the spec: the call `schema.Compiler{}.MakeList__StructField(fields...)`,
declared in another file: the "ordered field list" of the elements of the slice it is
given, in order. -/
def MakeList__StructField (fields : GoSlice StructField) : List StructField :=
  fields.toList

/-- Modelled from the spec: the call `schema.Compiler{}.MakeList__TypeName(members...)`,
declared in another file: the "ordered sequence of TypeName" of the elements of the slice
it is given, in order. -/
def MakeList__TypeName (members : GoSlice TypeName) : List TypeName :=
  members.toList

/-- Modelled from the spec: the compiled map representation strategies ("a compiled
representation-strategy value tagged with its kind"), declared in another file.
`Stringpairs a b` is the value of `c.MakeMapRepresentation_Stringpairs(a, b)`: its two
arguments in call order. -/
inductive MapRepresentation where
  | Map
  | Listpairs
  | Stringpairs (first second : String)
  deriving DecidableEq, Repr

/-- The composite literal `schema.StructRepresentation_Map_FieldDetails{Rename, Implicit}`.
`Rename` is a Go string (empty for "no rename"), `Implicit` an `interface{}` (`none` is nil). -/
structure StructRepresentation_Map_FieldDetails where
  Rename : String
  Implicit : Option AnyScalar
  deriving DecidableEq, Repr

/-- Modelled from the spec: the ordered-mapping carrier behind `StartMap__…`, `Append` and
`Finish` ("a compiled ordered mapping"); the builder is declared in another file. The
model keeps the size hint and the appended entries in the order of the `Append` calls. -/
structure MapBuilder (κ ν : Type) where
  sizeHint : Nat
  entries : List (κ × ν)
  deriving Repr

/-- The call `StartMap__K__V(sizeHint)`. -/
def StartMap {κ ν : Type} (sizeHint : Nat) : MapBuilder κ ν :=
  { sizeHint := sizeHint, entries := [] }

/-- The call `b.Append(k, v)`. -/
def MapBuilder.Append {κ ν : Type} (b : MapBuilder κ ν) (k : κ) (v : ν) : MapBuilder κ ν :=
  { b with entries := b.entries ++ [(k, v)] }

/-- The call `b.Finish()`: the finished ordered mapping, the appended entries in order. -/
def MapBuilder.Finish {κ ν : Type} (b : MapBuilder κ ν) : List (κ × ν) :=
  b.entries

/-- The call `MakeMap__K__V(ents...)`: the ordered mapping of the entries given. -/
def MakeMap {κ ν : Type} (ents : List (κ × ν)) : List (κ × ν) :=
  ents

/-- Modelled from the spec: the compiled struct representation strategies that the `flip`
methods produce, declared in another file: `Map m` is `MakeStructRepresentation_Map(m)` and `Stringjoin d v` is
`MakeStructRepresentation_Stringjoin(d, v)`, where `v` is a Go slice (nil means "use the
declared field order"). -/
inductive StructRepresentation where
  | Map (fields : List (StructFieldName × StructRepresentation_Map_FieldDetails))
  | Stringjoin (delim : String) (fieldOrder : GoSlice StructFieldName)
  deriving DecidableEq, Repr

/-- Modelled from the spec: the compiled union representation strategy that
`UnionRepresentation_Keyed.flip` produces, declared in another file: `Keyed m` is
`MakeUnionRepresentation_Keyed(m)`. -/
inductive UnionRepresentation where
  | Keyed (ents : List (String × TypeName))
  deriving DecidableEq, Repr

/-- One registration call on a `*schema.Compiler` (`c.TypeBool(name)`, …, `c.TypeUnion(name,
members, rstrat)`), with its arguments in call order. -/
inductive CompilerCall where
  | TypeBool (name : TypeName)
  | TypeString (name : TypeName)
  | TypeBytes (name : TypeName)
  | TypeInt (name : TypeName)
  | TypeFloat (name : TypeName)
  | TypeLink (name : TypeName) (expectedTypeRef : TypeName)
  | TypeMap (name keyType : TypeName) (valueType : TypeReference) (valueNullable : Bool)
      (repr : MapRepresentation)
  | TypeList (name : TypeName) (valueType : TypeReference) (valueNullable : Bool)
  | TypeStruct (name : TypeName) (fields : List StructField) (repr : StructRepresentation)
  | TypeUnion (name : TypeName) (members : List TypeName) (repr : UnionRepresentation)
  deriving DecidableEq, Repr

/-- Modelled from the spec: the compiler's "in-progress registration state"; the type
`schema.Compiler` is declared in another file. The model keeps the registration calls
received so far, oldest first. -/
structure Compiler where
  calls : List CompilerCall
  deriving DecidableEq, Repr

namespace Compiler

/-- The statements `c := &schema.Compiler{}; c.Init()`. -/
def Init : Compiler := { calls := [] }

/-- Receive one registration call. -/
def register (c : Compiler) (call : CompilerCall) : Compiler :=
  { calls := c.calls ++ [call] }

/-- Modelled from the spec: the call `c.MakeMapRepresentation_Stringpairs(a, b)`, declared in
another file ("translate verbatim"): the strategy of its two arguments. -/
def MakeMapRepresentation_Stringpairs (_c : Compiler) (a b : String) : MapRepresentation :=
  MapRepresentation.Stringpairs a b

end Compiler

end schema

/-! ## Package `schemadmt`: the schema declaration tree -/

namespace schemadmt

/-- The DMT node `MapRepresentation` (a union); the payload of `Stringpairs` is read with
`FieldInnerDelim()` and `FieldEntryDelim()`. -/
inductive MapRepresentation where
  | MapRepresentation_Map
  | MapRepresentation_Listpairs
  | MapRepresentation_Stringpairs (innerDelim entryDelim : String)
  deriving DecidableEq, Repr

mutual
/-- The DMT node `TypeNameOrInlineDefn`: a type name, or an inline (anonymous) definition. -/
inductive TypeNameOrInlineDefn where
  | TypeName (name : String)
  | TypeDefnInline (defn : TypeDefnInline)
/-- The DMT node `TypeDefnInline`: an anonymous map or list definition at its point of use. -/
inductive TypeDefnInline where
  | TypeMap (t : TypeMap)
  | TypeList (t : TypeList)
/-- The DMT node `TypeMap`. -/
inductive TypeMap where
  | mk (keyType : String) (valueType : TypeNameOrInlineDefn) (valueNullable : Bool)
      (representation : MapRepresentation)
/-- The DMT node `TypeList`. -/
inductive TypeList where
  | mk (valueType : TypeNameOrInlineDefn) (valueNullable : Bool)
end

namespace TypeMap

def FieldKeyType : TypeMap → String
  | mk k _ _ _ => k

def FieldValueType : TypeMap → TypeNameOrInlineDefn
  | mk _ v _ _ => v

def FieldValueNullable : TypeMap → Bool
  | mk _ _ n _ => n

def FieldRepresentation : TypeMap → MapRepresentation
  | mk _ _ _ r => r

end TypeMap

namespace TypeList

def FieldValueType : TypeList → TypeNameOrInlineDefn
  | mk v _ => v

def FieldValueNullable : TypeList → Bool
  | mk _ n => n

end TypeList

/-- The DMT node `TypeLink`; `FieldExpectedType()` is a maybe. -/
structure TypeLink where
  FieldExpectedType : Option String
  deriving DecidableEq, Repr

/-- The DMT node `StructField`. -/
structure StructField where
  FieldType : TypeNameOrInlineDefn
  FieldOptional : Bool
  FieldNullable : Bool

/-- The DMT node `StructRepresentation_Map_FieldDetails`: both members are maybes. The
source reads `FieldRename()` only. -/
structure StructRepresentation_Map_FieldDetails where
  FieldRename : Option String
  FieldImplicit : Option schema.AnyScalar
  deriving DecidableEq, Repr

/-- The DMT node `StructRepresentation_Map`; `FieldFields()` is a maybe of an ordered map
from field name to details. -/
structure StructRepresentation_Map where
  FieldFields : Option (List (String × StructRepresentation_Map_FieldDetails))
  deriving DecidableEq, Repr

/-- The DMT node `StructRepresentation_Stringjoin`; `FieldFieldOrder()` is a maybe of a
list of field names. -/
structure StructRepresentation_Stringjoin where
  FieldJoin : String
  FieldFieldOrder : Option (List String)
  deriving DecidableEq, Repr

/-- The DMT node `StructRepresentation` (a union). The payloads of the members whose `flip`
reads nothing are left out. -/
inductive StructRepresentation where
  | StructRepresentation_Map (r : StructRepresentation_Map)
  | StructRepresentation_Tuple
  | StructRepresentation_Stringpairs
  | StructRepresentation_Stringjoin (r : StructRepresentation_Stringjoin)
  | StructRepresentation_Listpairs
  deriving DecidableEq, Repr

/-- The DMT node `TypeStruct`; `FieldFields()` is an ordered map from field name to field. -/
structure TypeStruct where
  FieldFields : List (String × StructField)
  FieldRepresentation : StructRepresentation

/-- The DMT node `UnionRepresentation_Keyed`: an ordered map from wire key to type name. -/
structure UnionRepresentation_Keyed where
  entries : List (String × String)
  deriving DecidableEq, Repr

/-- The DMT node `UnionRepresentation` (a union). The payloads of the members whose `flip`
reads nothing are left out. -/
inductive UnionRepresentation where
  | UnionRepresentation_Keyed (r : UnionRepresentation_Keyed)
  | UnionRepresentation_Kinded
  | UnionRepresentation_Envelope
  | UnionRepresentation_Inline
  | UnionRepresentation_StringPrefix
  | UnionRepresentation_BytePrefix
  deriving DecidableEq, Repr

/-- The DMT node `TypeUnion`; `FieldMembers()` is a list of type names. -/
structure TypeUnion where
  FieldMembers : List String
  FieldRepresentation : UnionRepresentation
  deriving DecidableEq, Repr

/-- The DMT node `TypeDefn` (a union): one declared type. -/
inductive TypeDefn where
  | TypeBool
  | TypeString
  | TypeBytes
  | TypeInt
  | TypeFloat
  | TypeLink (t : TypeLink)
  | TypeMap (t : TypeMap)
  | TypeList (t : TypeList)
  | TypeStruct (t : TypeStruct)
  | TypeUnion (t : TypeUnion)
  | TypeEnum
  | TypeCopy

/-- The DMT node `Schema`; `FieldTypes()` is an ordered map from type name to declaration. -/
structure Schema where
  FieldTypes : List (String × TypeDefn)

/-! ### `compile.go`

The method `TypeNameOrInlineDefn.TypeReference()` and the final `(*schema.Compiler).Compile()`
are declared in another file. Both are parameters of the embedding: `typeReference` and
`finish`. -/

/-- `func (dmt TypeNameOrInlineDefn) flip(c *schema.Compiler)`: panics on an inline
definition, does nothing on a type name. -/
def TypeNameOrInlineDefn.flip (dmt : TypeNameOrInlineDefn) (_c : schema.Compiler) :
    Except String Unit :=
  match dmt with
  | .TypeDefnInline _ => .error "nyi"
  | .TypeName _ => .ok ()

/-- `func (dmt MapRepresentation) flip(c *schema.Compiler) schema.MapRepresentation`. -/
def MapRepresentation.flip (dmt : MapRepresentation) (c : schema.Compiler) :
    schema.MapRepresentation :=
  match dmt with
  | .MapRepresentation_Map => schema.MapRepresentation.Map
  | .MapRepresentation_Listpairs => schema.MapRepresentation.Listpairs
  | .MapRepresentation_Stringpairs innerDelim entryDelim =>
    c.MakeMapRepresentation_Stringpairs innerDelim entryDelim

/-- The details literal built for one entry in the loop of `StructRepresentation_Map.flip`:
`Rename` is the declared rename or the empty string, `Implicit` is nil. -/
def StructRepresentation_Map_FieldDetails.flip (det : StructRepresentation_Map_FieldDetails) :
    schema.StructRepresentation_Map_FieldDetails :=
  { Rename :=
      match det.FieldRename with
      | some r => r
      | none => ""
    Implicit := none }

/-- `func (dmt StructRepresentation_Map) flip() schema.StructRepresentation`. -/
def StructRepresentation_Map.flip (dmt : StructRepresentation_Map) :
    schema.StructRepresentation :=
  match dmt.FieldFields with
  | none => schema.StructRepresentation.Map (schema.MakeMap [])
  | some m =>
    let fields :=
      m.foldl (fun b ent => b.Append ent.1 ent.2.flip)
        (schema.StartMap m.length :
          schema.MapBuilder schema.StructFieldName schema.StructRepresentation_Map_FieldDetails)
    schema.StructRepresentation.Map fields.Finish

/-- `func (dmt StructRepresentation_Stringjoin) flip() schema.StructRepresentation`. The
field-order argument is the named result `v` of the inner function: nil when the order is
absent, otherwise `v` after one `append` for each name. -/
def StructRepresentation_Stringjoin.flip (dmt : StructRepresentation_Stringjoin) :
    schema.StructRepresentation :=
  schema.StructRepresentation.Stringjoin dmt.FieldJoin
    (match dmt.FieldFieldOrder with
     | none => GoSlice.nil
     | some order => order.foldl (fun v fn => GoSlice.append v fn) GoSlice.nil)

/-- The `rstrat` closure of the `TypeStruct` case: dispatch to the `flip` of the member;
the `flip` of `Tuple`, `Stringpairs` and `Listpairs` is `panic("TODO")`. -/
def StructRepresentation.flip (r : StructRepresentation) :
    Except String schema.StructRepresentation :=
  match r with
  | .StructRepresentation_Map r => .ok r.flip
  | .StructRepresentation_Tuple => .error "TODO"
  | .StructRepresentation_Stringpairs => .error "TODO"
  | .StructRepresentation_Stringjoin r => .ok r.flip
  | .StructRepresentation_Listpairs => .error "TODO"

/-- `func (dmt UnionRepresentation_Keyed) flip() schema.UnionRepresentation`. -/
def UnionRepresentation_Keyed.flip (dmt : UnionRepresentation_Keyed) :
    schema.UnionRepresentation :=
  let ents :=
    dmt.entries.foldl (fun b ent => b.Append ent.1 ent.2)
      (schema.StartMap dmt.entries.length : schema.MapBuilder String schema.TypeName)
  schema.UnionRepresentation.Keyed ents.Finish

/-- The `rstrat` closure of the `TypeUnion` case; every `flip` but the keyed one is
`panic("TODO")`. -/
def UnionRepresentation.flip (r : UnionRepresentation) :
    Except String schema.UnionRepresentation :=
  match r with
  | .UnionRepresentation_Keyed r => .ok r.flip
  | .UnionRepresentation_Kinded => .error "TODO"
  | .UnionRepresentation_Envelope => .error "TODO"
  | .UnionRepresentation_Inline => .error "TODO"
  | .UnionRepresentation_StringPrefix => .error "TODO"
  | .UnionRepresentation_BytePrefix => .error "TODO"

/-- The field loop of the `TypeStruct` case, from the current value of `fields`: each
iteration appends the flipped field and then calls `flip` on its type. -/
def structFieldsLoop (typeReference : TypeNameOrInlineDefn → schema.TypeReference)
    (c : schema.Compiler) :
    List (String × StructField) → GoSlice schema.StructField →
      Except String (GoSlice schema.StructField)
  | [], fields => .ok fields
  | (fname, fdmt) :: rest, fields =>
    let fields := fields.append
      (schema.MakeStructField fname (typeReference fdmt.FieldType) fdmt.FieldOptional
        fdmt.FieldNullable)
    match fdmt.FieldType.flip c with
    | .error e => .error e
    | .ok _ => structFieldsLoop typeReference c rest fields

/-- The member loop of the `TypeUnion` case, from the current value of `members`. -/
def unionMembersLoop : List String → GoSlice schema.TypeName → GoSlice schema.TypeName
  | [], members => members
  | memberName :: rest, members => unionMembersLoop rest (members.append memberName)

/-- One iteration of the loop of `Schema.Compile`: the `switch` on the declaration `t`
named `tn`, with the compiler state before and after. -/
def compileTypeDefn (typeReference : TypeNameOrInlineDefn → schema.TypeReference)
    (c : schema.Compiler) (tn : String) : TypeDefn → Except String schema.Compiler
  | .TypeBool => .ok (c.register (.TypeBool tn))
  | .TypeString => .ok (c.register (.TypeString tn))
  | .TypeBytes => .ok (c.register (.TypeBytes tn))
  | .TypeInt => .ok (c.register (.TypeInt tn))
  | .TypeFloat => .ok (c.register (.TypeFloat tn))
  | .TypeLink t2 =>
    match t2.FieldExpectedType with
    | some expected => .ok (c.register (.TypeLink tn expected))
    | none => .ok (c.register (.TypeLink tn ""))
  | .TypeMap t2 =>
    let c1 := c.register
      (.TypeMap tn t2.FieldKeyType (typeReference t2.FieldValueType) t2.FieldValueNullable
        (t2.FieldRepresentation.flip c))
    match t2.FieldValueType.flip c1 with
    | .error e => .error e
    | .ok _ => .ok c1
  | .TypeList t2 =>
    let c1 := c.register
      (.TypeList tn (typeReference t2.FieldValueType) t2.FieldValueNullable)
    match t2.FieldValueType.flip c1 with
    | .error e => .error e
    | .ok _ => .ok c1
  | .TypeStruct t2 =>
    match structFieldsLoop typeReference c t2.FieldFields
        (GoSlice.make schema.StructField.zero t2.FieldFields.length) with
    | .error e => .error e
    | .ok fields =>
      match t2.FieldRepresentation.flip with
      | .error e => .error e
      | .ok rstrat =>
        .ok (c.register (.TypeStruct tn (schema.MakeList__StructField fields) rstrat))
  | .TypeUnion t2 =>
    let members := unionMembersLoop t2.FieldMembers
      (GoSlice.make ("" : schema.TypeName) t2.FieldMembers.length)
    match t2.FieldRepresentation.flip with
    | .error e => .error e
    | .ok rstrat =>
      .ok (c.register (.TypeUnion tn (schema.MakeList__TypeName members) rstrat))
  | .TypeEnum => .error "TODO"
  | .TypeCopy =>
    .error ("no support for 'copy' types.  I might want to reneg on whether these are " ++
      "even part of the schema dmt.")

/-- The loop of `Schema.Compile` over the declarations still to visit. -/
def compileTypes (typeReference : TypeNameOrInlineDefn → schema.TypeReference) :
    schema.Compiler → List (String × TypeDefn) → Except String schema.Compiler
  | c, [] => .ok c
  | c, (tn, t) :: rest =>
    match compileTypeDefn typeReference c tn t with
    | .error e => .error e
    | .ok c1 => compileTypes typeReference c1 rest

/-- `func (schdmt Schema) Compile() (*schema.TypeSystem, []error)`. The result is
`Except.error v` when the run panics with `v`, and otherwise the value of `c.Compile()`,
which is `finish c`. -/
def Schema.Compile {ρ : Type} (typeReference : TypeNameOrInlineDefn → schema.TypeReference)
    (finish : schema.Compiler → ρ) (schdmt : Schema) : Except String ρ :=
  match compileTypes typeReference schema.Compiler.Init schdmt.FieldTypes with
  | .error e => .error e
  | .ok c => .ok (finish c)

end schemadmt

/-! ## `schema/type_link.go` -/

namespace schema

/-- Modelled from the spec: the compiled type system, "an immutable mapping from `TypeName`
to a compiled `Type` value"; the Go struct is declared in another file. `types` is the
Go map `ts.types`, and `τ` is the type of compiled `Type` values. -/
structure TypeSystem (τ : Type) where
  types : List (TypeReference × τ)

/-- The Go map index expression `ts.types[k]`: the stored value, or nil (`none`) when the
key is not in the map. -/
def TypeSystem.lookup {τ : Type} (ts : TypeSystem τ) (k : TypeReference) : Option τ :=
  ts.types.lookup k

/-- `type TypeLink struct`: `ts` is the back-reference to the owning type system. -/
structure TypeLink (τ : Type) where
  ts : TypeSystem τ
  name : TypeName
  expectedTypeRef : TypeName

/-- `func (t *TypeLink) HasExpectedType() bool`. -/
def TypeLink.HasExpectedType {τ : Type} (t : TypeLink τ) : Bool :=
  t.expectedTypeRef != ""

/-- `func (t *TypeLink) ExpectedType() Type`; nil is `none`. -/
def TypeLink.ExpectedType {τ : Type} (t : TypeLink τ) : Option τ :=
  if !t.HasExpectedType then
    none
  else
    t.ts.lookup t.expectedTypeRef

end schema

/-! ## `fluent/quip/quip.go` -/

namespace quip

/-- The part of the interface `ipld.Node` that `CopyRange` calls: `Length()` and
`LookupByIndex(i)`, with values of type `ν`. The interface is declared in another file. -/
structure Node (ν : Type) where
  Length : Int
  LookupByIndex : Int → Except String ν

/-- A list node with the elements `xs`: `Length()` is their number, and `LookupByIndex(i)`
is the element at `i`, or an error when `i` is not an index of the list. -/
def listNode {ν : Type} (xs : List ν) : Node ν :=
  { Length := (xs.length : Int)
    LookupByIndex := fun i =>
      if 0 ≤ i then
        match xs[i.toNat]? with
        | some n => .ok n
        | none => .error "index out of range"
      else
        .error "index out of range" }

/-- A list assembler: the values assembled so far, and which values its
`AssembleValue().AssignNode(n)` takes without error. -/
structure ListAssembler (ν : Type) where
  accepts : ν → Bool
  values : List ν

/-- The call `la.AssembleValue().AssignNode(n)`. -/
def ListAssembler.AssignNode {ν : Type} (la : ListAssembler ν) (n : ν) :
    Except String (ListAssembler ν) :=
  if la.accepts n then
    .ok { la with values := la.values ++ [n] }
  else
    .error "assign rejected"

/-- The `for i := start; i < end; i++` loop of `CopyRange`, from the current `i`. The
second component of the state lists the indices passed to `LookupByIndex` so far. Inside
the loop `i < end`, so `i++` stays within `int64`. -/
def copyLoop {ν : Type} (src : Node ν) (end_ : Int) (i : Int) (la : ListAssembler ν)
    (reads : List Int) : Except String (ListAssembler ν × List Int) :=
  if i < end_ then
    match src.LookupByIndex i with
    | .error e => .error e
    | .ok n =>
      match la.AssignNode n with
      | .error e => .error e
      | .ok la1 => copyLoop src end_ (i + 1) la1 (reads ++ [i])
  else
    .ok (la, reads)
termination_by (end_ - i).toNat
decreasing_by omega

/-- `func CopyRange(la ipld.ListAssembler, src ipld.Node, start, end int64)`. The result is
the assembler after the call together with the indices read from `src`, or the panic. -/
def CopyRange {ν : Type} (la : ListAssembler ν) (src : Node ν) (start end_ : Int) :
    Except String (ListAssembler ν × List Int) :=
  if start ≥ src.Length then
    .ok (la, [])
  else
    let end_ := if end_ < 0 then src.Length else end_
    if end_ < start then
      .ok (la, [])
    else
      copyLoop src end_ start la []

/-- The end `e` of the copied range: the length of the source when `end` is negative, and
`end` otherwise. -/
def endOrLength {ν : Type} (src : Node ν) (end_ : Int) : Int :=
  if end_ < 0 then src.Length else end_

end quip

/-! ## Concrete inputs -/

namespace schemadmt

/-- A rendering of type references used at concrete inputs: a type name is rendered by
itself, an inline definition by a fixed text. Every general statement below holds for any
rendering. -/
def nameOrPlaceholder : TypeNameOrInlineDefn → schema.TypeReference
  | .TypeName name => name
  | .TypeDefnInline _ => "(inline)"

/-- The panic value of the `TypeCopy` case. -/
def copyPanic : String :=
  "no support for 'copy' types.  I might want to reneg on whether these are " ++
    "even part of the schema dmt."

/-- A struct with the single field `a: nullable String` and the default map representation. -/
def structOneField : TypeDefn :=
  .TypeStruct
    { FieldFields :=
        [("a", { FieldType := .TypeName "String", FieldOptional := false, FieldNullable := true })]
      FieldRepresentation := .StructRepresentation_Map { FieldFields := none } }

/-- A union of the two members `A` and `B`, keyed by `a` and `b`. -/
def unionTwoMembers : TypeDefn :=
  .TypeUnion
    { FieldMembers := ["A", "B"]
      FieldRepresentation :=
        .UnionRepresentation_Keyed { entries := [("a", "A"), ("b", "B")] } }

/-- The inline definition `[String]`. -/
def inlineListOfString : TypeNameOrInlineDefn :=
  .TypeDefnInline (.TypeList (.mk (.TypeName "String") false))

/-- Two list declarations that use the same inline definition as their value type. -/
def schemaTwoInline : Schema :=
  { FieldTypes :=
      [("A", .TypeList (.mk inlineListOfString false)),
       ("B", .TypeList (.mk inlineListOfString false))] }

/-- A map representation of a struct whose field `a` declares the rename `b` and the
implicit value `"x"`. -/
def mapReprWithImplicit : StructRepresentation_Map :=
  { FieldFields :=
      some [("a", { FieldRename := some "b", FieldImplicit := some (.string "x") })] }

end schemadmt

/-! ## Properties of `compile.go` -/

namespace schemadmt

/-- The field loop over fields whose types are all type names never panics: it extends a
non-nil slice by the flipped fields, in order. -/
theorem structFieldsLoop_of_names
    (typeReference : TypeNameOrInlineDefn → schema.TypeReference) (c : schema.Compiler)
    (fs : List (String × StructField)) (xs : List schema.StructField)
    (hnames : ∀ f ∈ fs, ∃ name, f.2.FieldType = .TypeName name) :
    structFieldsLoop typeReference c fs (GoSlice.mk xs) =
      .ok (GoSlice.mk (xs ++ fs.map (fun f =>
        schema.MakeStructField f.1 (typeReference f.2.FieldType) f.2.FieldOptional
          f.2.FieldNullable))) := by
  induction fs generalizing xs with
  | nil => simp [structFieldsLoop]
  | cons f rest ih =>
    obtain ⟨fname, fdmt⟩ := f
    obtain ⟨name, hname⟩ := hnames (fname, fdmt) (List.mem_cons_self _ _)
    have hrest : ∀ g ∈ rest, ∃ name, g.2.FieldType = .TypeName name :=
      fun g hg => hnames g (List.mem_cons_of_mem _ hg)
    simp only at hname
    simp only [structFieldsLoop, hname, TypeNameOrInlineDefn.flip, GoSlice.append,
      GoSlice.toList]
    rw [ih _ hrest]
    simp [hname]

/-- The member loop extends a non-nil slice by the member names, in order. -/
theorem unionMembersLoop_mk (ms : List String) (xs : List schema.TypeName) :
    unionMembersLoop ms (GoSlice.mk xs) = GoSlice.mk (xs ++ ms) := by
  induction ms generalizing xs with
  | nil => simp [unionMembersLoop]
  | cons m rest ih =>
    simp [unionMembersLoop, GoSlice.append, GoSlice.toList, ih]

/-- What `Schema.Compile` hands to `TypeStruct` in general: for a struct with `n` fields
whose types are all type names and whose representation has a `flip`, the field list is
`n` zero-valued fields followed by the `n` flipped fields. -/
theorem compileTypeDefn_struct_fields
    (typeReference : TypeNameOrInlineDefn → schema.TypeReference) (c : schema.Compiler)
    (tn : String) (t2 : TypeStruct) (rstrat : schema.StructRepresentation)
    (hnames : ∀ f ∈ t2.FieldFields, ∃ name, f.2.FieldType = .TypeName name)
    (hrepr : t2.FieldRepresentation.flip = .ok rstrat) :
    compileTypeDefn typeReference c tn (.TypeStruct t2) =
      .ok (c.register (.TypeStruct tn
        (List.replicate t2.FieldFields.length schema.StructField.zero ++
          t2.FieldFields.map (fun f =>
            schema.MakeStructField f.1 (typeReference f.2.FieldType) f.2.FieldOptional
              f.2.FieldNullable))
        rstrat)) := by
  simp only [compileTypeDefn, GoSlice.make,
    structFieldsLoop_of_names typeReference c _ _ hnames, hrepr]
  simp [schema.MakeList__StructField, GoSlice.toList]

/-- What `Schema.Compile` hands to `TypeUnion` in general: for a union with `m` members
whose representation has a `flip`, the member list is `m` empty names followed by the `m`
declared names. -/
theorem compileTypeDefn_union_members
    (typeReference : TypeNameOrInlineDefn → schema.TypeReference) (c : schema.Compiler)
    (tn : String) (t2 : TypeUnion) (rstrat : schema.UnionRepresentation)
    (hrepr : t2.FieldRepresentation.flip = .ok rstrat) :
    compileTypeDefn typeReference c tn (.TypeUnion t2) =
      .ok (c.register (.TypeUnion tn
        (List.replicate t2.FieldMembers.length "" ++ t2.FieldMembers) rstrat)) := by
  simp [compileTypeDefn, hrepr, GoSlice.make, unionMembersLoop_mk,
    schema.MakeList__TypeName, GoSlice.toList]

/-- C1, evaluated at a struct with one field: the field list handed to `TypeStruct` has two
entries, a zero-valued field and then the declared field, and not the single declared
field. -/
theorem C1_struct_field_list_has_zero_entries :
    Schema.Compile nameOrPlaceholder id { FieldTypes := [("S", structOneField)] } =
      .ok { calls :=
        [.TypeStruct "S"
          [{ name := "", type := "", optional := false, nullable := false },
           { name := "a", type := "String", optional := false, nullable := true }]
          (.Map [])] } := by
  rfl

/-- C2, evaluated at a union with the two members `A` and `B`: the member list handed to
`TypeUnion` has four entries, two empty names and then `A` and `B`. -/
theorem C2_union_member_list_has_empty_names :
    Schema.Compile nameOrPlaceholder id { FieldTypes := [("U", unionTwoMembers)] } =
      .ok { calls :=
        [.TypeUnion "U" ["", "", "A", "B"] (.Keyed [("a", "A"), ("b", "B")])] } := by
  rfl

/-- The loop of `Schema.Compile` over `pre ++ rest` runs over `pre` and, when that did not
panic, goes on over `rest` from the state reached. -/
theorem compileTypes_append
    (typeReference : TypeNameOrInlineDefn → schema.TypeReference) (c : schema.Compiler)
    (pre rest : List (String × TypeDefn)) :
    compileTypes typeReference c (pre ++ rest) =
      match compileTypes typeReference c pre with
      | .error e => .error e
      | .ok c1 => compileTypes typeReference c1 rest := by
  induction pre generalizing c with
  | nil => simp [compileTypes]
  | cons d ds ih =>
    obtain ⟨tn, t⟩ := d
    simp only [List.cons_append, compileTypes]
    cases h : compileTypeDefn typeReference c tn t with
    | error e => simp
    | ok c1 => simpa using ih c1

/-- C3, as the claim states it, fails: on the schema of one `Copy` declaration followed by
one `Bool` declaration, `Schema.Compile` does not return an error set, it panics. -/
theorem C3_copy_then_bool_panics :
    Schema.Compile nameOrPlaceholder id
        { FieldTypes := [("C", .TypeCopy), ("B", .TypeBool)] } =
      .error copyPanic := by
  rfl

/-- C3, as amended: on every schema that contains a `Copy` declaration, `Schema.Compile`
does not return, it panics; the declarations after the `Copy` entry are not visited (the
outcome is the one of the schema cut after the `Copy` entry); and when the declarations
before the `Copy` entry are processed without a panic, the panic is the one of the `Copy`
case. -/
theorem C3_compile_panics_on_copy {ρ : Type}
    (typeReference : TypeNameOrInlineDefn → schema.TypeReference)
    (finish : schema.Compiler → ρ) (pre post : List (String × TypeDefn)) (tn : String) :
    (∃ v, Schema.Compile typeReference finish
        { FieldTypes := pre ++ (tn, .TypeCopy) :: post } = .error v) ∧
    Schema.Compile typeReference finish { FieldTypes := pre ++ (tn, .TypeCopy) :: post } =
      Schema.Compile typeReference finish { FieldTypes := pre ++ [(tn, .TypeCopy)] } ∧
    (∀ c, compileTypes typeReference schema.Compiler.Init pre = .ok c →
      Schema.Compile typeReference finish
        { FieldTypes := pre ++ (tn, .TypeCopy) :: post } = .error copyPanic) := by
  simp only [Schema.Compile, compileTypes_append]
  cases h : compileTypes typeReference schema.Compiler.Init pre with
  | error e => simp
  | ok c1 => simp [compileTypes, compileTypeDefn, copyPanic]

/-- An instance of `C3_compile_panics_on_copy` with a declaration before the `Copy` entry:
the `Bool` declaration is registered, then the `Copy` case panics. -/
theorem C3_compile_panics_on_copy_witness :
    Schema.Compile nameOrPlaceholder id
        { FieldTypes := [("B", .TypeBool)] ++ ("C", .TypeCopy) :: [("D", .TypeInt)] } =
      .error copyPanic :=
  (C3_compile_panics_on_copy nameOrPlaceholder id [("B", .TypeBool)] [("D", .TypeInt)] "C").2.2
    { calls := [.TypeBool "B"] } rfl

/-- C4, evaluated at a field order that is present with zero names: for every join
delimiter the field-order argument handed to `MakeStructRepresentation_Stringjoin` is the
nil slice, the same argument as for an absent field order. -/
theorem C4_stringjoin_empty_order_is_nil (join : String) :
    StructRepresentation_Stringjoin.flip { FieldJoin := join, FieldFieldOrder := some [] } =
        schema.StructRepresentation.Stringjoin join GoSlice.nil ∧
    StructRepresentation_Stringjoin.flip { FieldJoin := join, FieldFieldOrder := none } =
        schema.StructRepresentation.Stringjoin join GoSlice.nil := by
  constructor <;> rfl

/-- A declaration of kind map or list whose value type is an inline definition, and a struct
one of whose fields has an inline definition as its type, make the loop body panic with
`"nyi"`. -/
theorem compileTypeDefn_inline_panics
    (typeReference : TypeNameOrInlineDefn → schema.TypeReference) (c : schema.Compiler)
    (tn : String) (defn : TypeDefnInline) :
    (∀ k n r, compileTypeDefn typeReference c tn
        (.TypeMap (.mk k (.TypeDefnInline defn) n r)) = .error "nyi") ∧
    (∀ n, compileTypeDefn typeReference c tn
        (.TypeList (.mk (.TypeDefnInline defn) n)) = .error "nyi") ∧
    (∀ fname o n rest r, compileTypeDefn typeReference c tn
        (.TypeStruct
          { FieldFields :=
              (fname, { FieldType := .TypeDefnInline defn, FieldOptional := o,
                        FieldNullable := n }) :: rest
            FieldRepresentation := r }) = .error "nyi") := by
  refine ⟨?_, ?_, ?_⟩
  · intro k n r
    simp [compileTypeDefn, TypeMap.FieldValueType, TypeNameOrInlineDefn.flip]
  · intro n
    simp [compileTypeDefn, TypeList.FieldValueType, TypeNameOrInlineDefn.flip]
  · intro fname o n rest r
    simp [compileTypeDefn, structFieldsLoop, TypeNameOrInlineDefn.flip]

/-- C5, evaluated at a schema of two list declarations with the same inline definition
`[String]` as value type: `Schema.Compile` panics with `"nyi"` at the first of them, and no
inline definition is resolved to a compiled type. -/
theorem C5_inline_definitions_panic :
    Schema.Compile nameOrPlaceholder id schemaTwoInline = .error "nyi" := by
  rfl

/-- The loop of `StructRepresentation_Map.flip` appends one entry for each declared entry,
in order. -/
theorem foldl_Append_details
    (m : List (String × StructRepresentation_Map_FieldDetails))
    (b : schema.MapBuilder schema.StructFieldName schema.StructRepresentation_Map_FieldDetails) :
    (m.foldl (fun b ent => b.Append ent.1 ent.2.flip) b).Finish =
      b.entries ++ m.map (fun ent => (ent.1, ent.2.flip)) := by
  induction m generalizing b with
  | nil => simp [schema.MapBuilder.Finish]
  | cons ent rest ih =>
    rw [List.foldl_cons, ih]
    simp [schema.MapBuilder.Append]

/-- What `StructRepresentation_Map.flip` produces in general: no entry when the details are
absent, and otherwise one entry for each declared entry, in declared order, with the declared
rename (the empty string when absent) and with no implicit value, whatever was declared. -/
theorem StructRepresentation_Map_flip_eq (dmt : StructRepresentation_Map) :
    dmt.flip =
      schema.StructRepresentation.Map
        (match dmt.FieldFields with
         | none => []
         | some m => m.map (fun ent =>
             (ent.1, { Rename := ent.2.FieldRename.getD "", Implicit := none }))) := by
  obtain ⟨ff⟩ := dmt
  cases ff with
  | none => rfl
  | some m =>
    simp only [StructRepresentation_Map.flip, foldl_Append_details, schema.StartMap,
      List.nil_append]
    congr 1
    apply List.map_congr_left
    intro ent _
    cases h : ent.2.FieldRename <;> simp [StructRepresentation_Map_FieldDetails.flip, h]

/-- C6, evaluated at a representation whose field `a` declares the rename `b` and the
implicit value `"x"`: the compiled details of `a` carry the rename and no implicit value. -/
theorem C6_declared_implicit_is_dropped :
    mapReprWithImplicit.flip =
      schema.StructRepresentation.Map [("a", { Rename := "b", Implicit := none })] := by
  rfl

/-- The loop of `UnionRepresentation_Keyed.flip` appends one entry for each declared entry,
in order. -/
theorem foldl_Append_keyed (m : List (String × String))
    (b : schema.MapBuilder String schema.TypeName) :
    (m.foldl (fun b ent => b.Append ent.1 ent.2) b).Finish = b.entries ++ m := by
  induction m generalizing b with
  | nil => simp [schema.MapBuilder.Finish]
  | cons ent rest ih =>
    rw [List.foldl_cons, ih]
    simp [schema.MapBuilder.Append]

/-- C9: for a keyed union representation with `k` entries, `UnionRepresentation_Keyed.flip`
builds an ordered mapping with exactly `k` entries whose `i`-th entry is the `i`-th declared
wire key paired with the `i`-th declared member type name; nothing is dropped, merged or
reordered, so two wire keys that name the same member are both kept. -/
theorem C9_keyed_flip_preserves_entries (dmt : UnionRepresentation_Keyed) :
    ∃ ents : List (String × schema.TypeName),
      dmt.flip = schema.UnionRepresentation.Keyed ents ∧
      ents.length = dmt.entries.length ∧
      (∀ i : Nat, ents[i]? = dmt.entries[i]?) ∧
      ents.map Prod.fst = dmt.entries.map Prod.fst ∧
      ents.map Prod.snd = dmt.entries.map Prod.snd := by
  refine ⟨dmt.entries, ?_, rfl, fun _ => rfl, rfl, rfl⟩
  simp [UnionRepresentation_Keyed.flip, foldl_Append_keyed, schema.StartMap]

/-- An instance of C9: two wire keys that name the same member type are both kept. -/
theorem keyed_flip_same_member_twice :
    UnionRepresentation_Keyed.flip { entries := [("x", "Foo"), ("y", "Foo")] } =
      schema.UnionRepresentation.Keyed [("x", "Foo"), ("y", "Foo")] := by
  rfl

/-- C7, as the claim states it, fails: for a link declaration whose expected type is present
with the empty type name, the compiled link type (the one holding the reference handed to
`c.TypeLink`) reports no expected type, and `ExpectedType()` is nil although the type system
stores a type under that name. -/
theorem C7_empty_expected_type_name :
    compileTypeDefn nameOrPlaceholder schema.Compiler.Init "L"
        (.TypeLink { FieldExpectedType := some "" }) =
      .ok { calls := [.TypeLink "L" ""] } ∧
    schema.TypeLink.HasExpectedType
        ({ ts := { types := [("", 7)] }, name := "L", expectedTypeRef := "" } :
          schema.TypeLink Nat) = false ∧
    schema.TypeLink.ExpectedType
        ({ ts := { types := [("", 7)] }, name := "L", expectedTypeRef := "" } :
          schema.TypeLink Nat) = none ∧
    schema.TypeSystem.lookup ({ types := [("", 7)] } : schema.TypeSystem Nat) "" = some 7 := by
  refine ⟨rfl, ?_, ?_, ?_⟩ <;> decide

/-- C7, as amended: `Schema.Compile` hands a link declaration named `tn` to the compiler as
one call `c.TypeLink(tn, ref)`, and for the link type `t` of a type system `ts` that holds
this name and this reference: if the expected type is absent, `t.HasExpectedType()` is false
and `t.ExpectedType()` is nil; if it is present with a non-empty type name `T`,
`t.HasExpectedType()` is true and `t.ExpectedType()` is what `ts` stores under `T`; and if it
is present with the empty type name, `t` behaves as for an absent expected type. -/
theorem C7_link_expected_type {τ : Type}
    (typeReference : TypeNameOrInlineDefn → schema.TypeReference) (c : schema.Compiler)
    (tn : String) (t2 : TypeLink) (ts : schema.TypeSystem τ) :
    ∃ ref, compileTypeDefn typeReference c tn (.TypeLink t2) =
        .ok (c.register (.TypeLink tn ref)) ∧
      (t2.FieldExpectedType = none →
        schema.TypeLink.HasExpectedType
            { ts := ts, name := tn, expectedTypeRef := ref } = false ∧
        schema.TypeLink.ExpectedType
            { ts := ts, name := tn, expectedTypeRef := ref } = none) ∧
      (∀ T, t2.FieldExpectedType = some T → T ≠ "" →
        schema.TypeLink.HasExpectedType
            { ts := ts, name := tn, expectedTypeRef := ref } = true ∧
        schema.TypeLink.ExpectedType
            { ts := ts, name := tn, expectedTypeRef := ref } = ts.lookup T) ∧
      (t2.FieldExpectedType = some "" →
        schema.TypeLink.HasExpectedType
            { ts := ts, name := tn, expectedTypeRef := ref } = false ∧
        schema.TypeLink.ExpectedType
            { ts := ts, name := tn, expectedTypeRef := ref } = none) := by
  obtain ⟨expected⟩ := t2
  cases expected with
  | none =>
    refine ⟨"", rfl, ?_, ?_, ?_⟩
    · intro _
      simp [schema.TypeLink.HasExpectedType, schema.TypeLink.ExpectedType]
    · intro T h
      simp at h
    · intro h
      simp at h
  | some T0 =>
    refine ⟨T0, rfl, ?_, ?_, ?_⟩
    · intro h
      simp at h
    · intro T h hT
      simp only [Option.some.injEq] at h
      subst h
      simp [schema.TypeLink.HasExpectedType, schema.TypeLink.ExpectedType, hT]
    · intro h
      simp only [Option.some.injEq] at h
      subst h
      simp [schema.TypeLink.HasExpectedType, schema.TypeLink.ExpectedType]

/-- An instance of `C7_link_expected_type`: a link declaration with the expected type `Foo`,
in a type system that stores a type under `Foo`. -/
theorem C7_link_expected_type_witness :
    schema.TypeLink.HasExpectedType
        ({ ts := { types := [("Foo", 7)] }, name := "L", expectedTypeRef := "Foo" } :
          schema.TypeLink Nat) = true ∧
    schema.TypeLink.ExpectedType
        ({ ts := { types := [("Foo", 7)] }, name := "L", expectedTypeRef := "Foo" } :
          schema.TypeLink Nat) = some 7 := by
  obtain ⟨ref, hcall, _, hpresent, _⟩ :=
    C7_link_expected_type (τ := Nat) nameOrPlaceholder schema.Compiler.Init "L"
      { FieldExpectedType := some "Foo" } { types := [("Foo", 7)] }
  have href : ref = "Foo" := by
    simp only [compileTypeDefn, schema.Compiler.register, Except.ok.injEq,
      schema.Compiler.mk.injEq, List.append_cancel_left_eq, List.cons.injEq,
      schema.CompilerCall.TypeLink.injEq, true_and, and_true] at hcall
    exact hcall.symm
  subst href
  exact hpresent "Foo" rfl (by decide)

end schemadmt

/-! ## Properties of `quip.go` -/

namespace quip

/-- The loop of `CopyRange` over a list node, from an index `i` with `0 ≤ i ≤ end ≤ n`, on an
assembler that takes every value: it terminates without a panic, appends the elements at
`i`, …, `end - 1` in order, and reads exactly these indices. -/
theorem copyLoop_spec {ν : Type} (xs : List ν) (end_ : Int)
    (hend : end_ ≤ (xs.length : Int)) (k : Nat) :
    ∀ (i : Int) (la : ListAssembler ν) (reads : List Int),
      0 ≤ i → i ≤ end_ → (end_ - i).toNat = k → (∀ x, la.accepts x = true) →
      copyLoop (listNode xs) end_ i la reads =
        .ok ({ la with values := la.values ++ (xs.take end_.toNat).drop i.toNat },
             reads ++ (List.range' i.toNat k).map Int.ofNat) := by
  induction k with
  | zero =>
    intro i la reads hi hie hk _
    have : i = end_ := by omega
    subst this
    rw [copyLoop]
    have hnil : (xs.take i.toNat).drop i.toNat = [] := by
      apply List.drop_eq_nil_of_le
      simp
    simp [hnil]
  | succ k ih =>
    intro i la reads hi hie hk hacc
    have hlt : i < end_ := by omega
    have hidx : i.toNat < xs.length := by omega
    rw [copyLoop]
    simp only [hlt, if_true, listNode, hi, List.getElem?_eq_getElem hidx,
      ListAssembler.AssignNode, hacc]
    have hstep := ih (i + 1) { accepts := la.accepts, values := la.values ++ [xs[i.toNat]] }
      (reads ++ [i]) (by omega) (by omega) (by omega) hacc
    simp only [listNode] at hstep
    rw [hstep]
    have h1 : (i + 1).toNat = i.toNat + 1 := by omega
    have hd : (xs.take end_.toNat).drop i.toNat =
        xs[i.toNat] :: (xs.take end_.toNat).drop (i.toNat + 1) := by
      have hlen : i.toNat < (xs.take end_.toNat).length := by
        simp only [List.length_take]; omega
      rw [List.drop_eq_getElem_cons hlen]
      simp
    simp only [h1, hd, List.range'_succ, List.map_cons, List.append_assoc,
      List.singleton_append]
    congr 2
    simp
    omega

/-- C10: for a source list node of length `n`, `start ≥ 0`, an `end` that is negative or at
most `n`, and a list assembler whose assignments all succeed, `CopyRange(la, src, start,
end)` returns without a panic, having appended to `la` exactly the elements `src[start]`, …,
`src[e-1]` in index order, where `e = n` if `end < 0` and `e = end` otherwise; the indices it
reads are `start`, …, `e - 1`, all within `[start, e)`; and it appends and reads nothing when
`start ≥ n` or `e ≤ start`. -/
theorem C10_CopyRange_copies_the_range {ν : Type} (la : ListAssembler ν) (xs : List ν)
    (start end_ : Int) (hassign : ∀ x, la.accepts x = true) (hstart : 0 ≤ start)
    (hend : end_ < 0 ∨ end_ ≤ (listNode xs).Length) :
    ∃ la1 reads,
      CopyRange la (listNode xs) start end_ = .ok (la1, reads) ∧
      la1.accepts = la.accepts ∧
      la1.values =
        la.values ++ (xs.take (endOrLength (listNode xs) end_).toNat).drop start.toNat ∧
      reads =
        (List.range' start.toNat (endOrLength (listNode xs) end_ - start).toNat).map
          Int.ofNat ∧
      (∀ r ∈ reads, start ≤ r ∧ r < endOrLength (listNode xs) end_) ∧
      ((listNode xs).Length ≤ start ∨ endOrLength (listNode xs) end_ ≤ start →
        la1.values = la.values ∧ reads = []) := by
  have hlen : (listNode xs).Length = (xs.length : Int) := rfl
  rw [hlen] at hend ⊢
  have hstop : endOrLength (listNode xs) end_ ≤ (xs.length : Int) := by
    unfold endOrLength
    rw [hlen]
    split <;> omega
  have hbounds : ∀ r ∈ (List.range' start.toNat
      (endOrLength (listNode xs) end_ - start).toNat).map Int.ofNat,
      start ≤ r ∧ r < endOrLength (listNode xs) end_ := by
    intro r hr
    simp only [List.mem_map, List.mem_range'_1] at hr
    obtain ⟨n, ⟨h1, h2⟩, rfl⟩ := hr
    simp only [Int.ofNat_eq_coe]
    omega
  by_cases hempty : (xs.length : Int) ≤ start ∨ endOrLength (listNode xs) end_ ≤ start
  · have hle : endOrLength (listNode xs) end_ ≤ start := by
      rcases hempty with h | h <;> omega
    have hnil : (xs.take (endOrLength (listNode xs) end_).toNat).drop start.toNat = [] := by
      apply List.drop_eq_nil_of_le
      simp only [List.length_take]
      omega
    have hcount : (endOrLength (listNode xs) end_ - start).toNat = 0 := by omega
    have hrun : CopyRange la (listNode xs) start end_ = .ok (la, []) := by
      unfold CopyRange
      rw [hlen]
      by_cases h1 : start ≥ (xs.length : Int)
      · simp [h1]
      · simp only [h1, if_false]
        have h2 : endOrLength (listNode xs) end_ = start ∨
            endOrLength (listNode xs) end_ < start := by omega
        rcases h2 with h2 | h2
        · have h3 : ¬ (endOrLength (listNode xs) end_ < start) := by omega
          unfold endOrLength at h2 h3
          rw [hlen] at h2 h3
          simp only [h3, if_false]
          rw [h2, copyLoop]
          simp
        · unfold endOrLength at h2
          rw [hlen] at h2
          simp [h2]
    refine ⟨la, [], hrun, rfl, ?_, ?_, ?_, ?_⟩
    · simp [hnil]
    · simp [hcount]
    · intro r hr
      simp at hr
    · intro _
      exact ⟨rfl, rfl⟩
  · have h1 : ¬ (start ≥ (xs.length : Int)) := by omega
    have h2 : ¬ (endOrLength (listNode xs) end_ < start) := by omega
    have hrun : CopyRange la (listNode xs) start end_ =
        copyLoop (listNode xs) (endOrLength (listNode xs) end_) start la [] := by
      unfold CopyRange
      unfold endOrLength at h2 ⊢
      rw [hlen] at h2 ⊢
      simp only [h1, if_false, h2]
    rw [hrun, copyLoop_spec xs _ hstop _ start la [] hstart (by omega) rfl hassign]
    refine ⟨_, _, rfl, rfl, rfl, by simp, ?_, ?_⟩
    · simpa using hbounds
    · intro h
      exact absurd h hempty

/-- An instance of C10: copying the range `[1, 3)` of the list `10, 20, 30, 40` onto an
assembler that holds `9`. -/
theorem C10_CopyRange_copies_the_range_witness :
    ∃ la1 reads,
      CopyRange ({ accepts := fun _ => true, values := [9] } : ListAssembler Nat)
          (listNode [10, 20, 30, 40]) 1 3 = .ok (la1, reads) ∧
      la1.values = [9, 20, 30] ∧ reads = [1, 2] := by
  obtain ⟨la1, reads, hrun, _, hvalues, hreads, _, _⟩ :=
    C10_CopyRange_copies_the_range
      ({ accepts := fun _ => true, values := [9] } : ListAssembler Nat)
      [10, 20, 30, 40] 1 3 (fun _ => rfl) (by decide) (Or.inr (by decide))
  refine ⟨la1, reads, hrun, ?_, ?_⟩
  · rw [hvalues]
    decide
  · rw [hreads]
    decide

end quip
